import Mathlib

/-!
Verification development for the `air-dsl` IR builder (`ir` crate).

The orchestrator (`AirIR::from_source`, the validation helpers and the public
accessors) is embedded from `src/ir/src/lib.rs`.  The submodules that file
uses (`symbol_table`, `boundary_constraints`, `transition_constraints`,
`error`) and the parser AST belong to the repository but their sources are not
available, so they are modelled from the specification; each such definition
carries a doc comment starting with `Modelled from the spec:`.
-/

deriving instance DecidableEq for Except

namespace AirDsl

/-- Modelled from the spec: the boundary designator of a boundary constraint
(`first` or `last` row). Source module `parser::ast::boundary_constraints`
is missing. -/
inductive Boundary where
  | first
  | last
deriving DecidableEq

/-- Modelled from the spec: boundary-constraint expressions are "simple
literal/public-input trees, not graph-shared".  Source module
`parser::ast::boundary_constraints` (`BoundaryExpr`) is missing. -/
inductive BoundaryExpr where
  | Const (value : Nat)
  | PubInput (name : String) (index : Nat)
deriving DecidableEq

/-- Modelled from the spec: a boundary-constraint AST node
`{column_ref, boundary(first|last), rhs_expr}`; the column reference can
carry a next-row offset, which boundary constraints must reject.  Source
module `parser::ast` is missing. -/
structure BoundaryConstraintAst where
  column : String
  row_offset_next : Bool
  boundary : Boundary
  value : BoundaryExpr
deriving DecidableEq

/-- Modelled from the spec: transition-constraint expressions (constants,
current/next column references, indexed public-input references, random
values, binary add/sub/mul, exponent by a non-negative integer constant),
already normalized to an `expression = 0` form.  Source module
`parser::ast::transition_constraints` is missing. -/
inductive TransitionExpr where
  | const (value : Nat)
  | var (name : String) (row_offset_next : Bool)
  | pubRef (name : String) (index : Nat)
  | randRef (index : Nat)
  | add (lhs rhs : TransitionExpr)
  | sub (lhs rhs : TransitionExpr)
  | mul (lhs rhs : TransitionExpr)
  | exp (base : TransitionExpr) (exponent : Nat)
deriving DecidableEq

/-- Modelled from the spec: the typed source sections delivered by the parser
collaborator (`ast::SourceSection`): AIR name declaration, trace columns,
public inputs, periodic columns, boundary constraints, transition
constraints. -/
inductive SourceSection where
  | AirDef (name : String)
  | TraceCols (main_cols : List String) (aux_cols : List String)
  | PublicInputs (inputs : List (String × Nat))
  | PeriodicColumns (columns : List (String × List Nat))
  | BoundaryConstraints (constraints : List BoundaryConstraintAst)
  | TransitionConstraints (constraints : List TransitionExpr)
deriving DecidableEq

/-- Modelled from the spec: the semantic error taxonomy of the missing
`error` module (`SemanticError`).  The `MissingSection` payloads are the
message strings visible in `src/ir/src/lib.rs`. -/
inductive SemanticError where
  | DuplicateIdentifier (name : String)
  | InvalidPeriodicColumnCycle (name : String) (length : Nat)
  | UndeclaredIdentifier (name : String)
  | InvalidNextRowUsage (name : String)
  | DuplicateBoundaryAssertion (column : Nat) (boundary : Boundary)
  | MissingSection (which : String)
deriving DecidableEq

/-- Modelled from the spec: the identifier kinds stored by the missing
`symbol_table` module: `MainTraceColumn(index)`, `AuxTraceColumn(index)`,
`PublicInput(declared_size)`, `PeriodicColumn(index, cycle_length)`. -/
inductive IdentifierType where
  | MainTraceColumn (index : Nat)
  | AuxTraceColumn (index : Nat)
  | PublicInput (size : Nat)
  | PeriodicColumn (index : Nat) (cycle_length : Nat)
deriving DecidableEq

/-- Modelled from the spec: the minimum periodic-column cycle length constant
exported by the missing `transition_constraints` module; the smallest
admissible power of two. -/
def MIN_CYCLE_LENGTH : Nat := 2

/-- Modelled from the spec: the power-of-two test used to validate periodic
column cycle lengths. -/
def is_power_of_two (n : Nat) : Bool := n != 0 && (n &&& (n - 1)) == 0

/-- Modelled from the spec: the missing `symbol_table` module's state — a
name-keyed map of identifier bindings plus the declaration lists that are
copied out into the IR (public inputs and periodic column values, insertion
order preserved). -/
structure SymbolTable where
  identifiers : List (String × IdentifierType)
  public_inputs : List (String × Nat)
  periodic_columns : List (List Nat)
deriving DecidableEq

namespace SymbolTable

/-- The empty symbol table (`SymbolTable::default`). -/
def init : SymbolTable := ⟨[], [], []⟩

/-- Modelled from the spec: `resolve(name)` — look a declared name up. -/
def lookup (st : SymbolTable) (name : String) : Option IdentifierType :=
  st.identifiers.lookup name

/-- Modelled from the spec: the shared insertion path — every declaration
fails with `DuplicateIdentifier` if the name already exists under any kind. -/
def insert_symbol (st : SymbolTable) (name : String) (ty : IdentifierType) :
    Except SemanticError SymbolTable :=
  if (st.lookup name).isSome then
    .error (.DuplicateIdentifier name)
  else
    .ok { st with identifiers := st.identifiers ++ [(name, ty)] }

/-- Number of main trace columns declared so far (the next index to assign). -/
def num_main_cols (st : SymbolTable) : Nat :=
  st.identifiers.countP fun p =>
    match p.2 with
    | .MainTraceColumn _ => true
    | _ => false

/-- Number of auxiliary trace columns declared so far. -/
def num_aux_cols (st : SymbolTable) : Nat :=
  st.identifiers.countP fun p =>
    match p.2 with
    | .AuxTraceColumn _ => true
    | _ => false

/-- Modelled from the spec: `insert_main_trace_columns` — indices follow
source order within the category. -/
def insert_main_trace_columns (st : SymbolTable) (names : List String) :
    Except SemanticError SymbolTable :=
  names.foldlM (fun st name => st.insert_symbol name (.MainTraceColumn st.num_main_cols)) st

/-- Modelled from the spec: `insert_aux_trace_columns`. -/
def insert_aux_trace_columns (st : SymbolTable) (names : List String) :
    Except SemanticError SymbolTable :=
  names.foldlM (fun st name => st.insert_symbol name (.AuxTraceColumn st.num_aux_cols)) st

/-- Modelled from the spec: `insert_public_inputs` — records each
`{name, size}` in the table and appends it to the public-input list. -/
def insert_public_inputs (st : SymbolTable) (inputs : List (String × Nat)) :
    Except SemanticError SymbolTable :=
  inputs.foldlM
    (fun st input => do
      let st ← st.insert_symbol input.1 (.PublicInput input.2)
      .ok { st with public_inputs := st.public_inputs ++ [input] })
    st

/-- Modelled from the spec: `insert_periodic_columns` — duplicate-name check,
then the cycle-length check (`values.length` a power of two and at least
`MIN_CYCLE_LENGTH`), then the value list is appended in insertion order. -/
def insert_periodic_columns (st : SymbolTable) (columns : List (String × List Nat)) :
    Except SemanticError SymbolTable :=
  columns.foldlM
    (fun st column => do
      let st ← st.insert_symbol column.1
        (.PeriodicColumn st.periodic_columns.length column.2.length)
      if is_power_of_two column.2.length = true ∧ MIN_CYCLE_LENGTH ≤ column.2.length then
        .ok { st with periodic_columns := st.periodic_columns ++ [column.2] }
      else
        .error (.InvalidPeriodicColumnCycle column.1 column.2.length))
    st

/-- Modelled from the spec: `into_declarations` — the table is converted into
the IR's public-input and periodic-column lists and discarded. -/
def into_declarations (st : SymbolTable) : List (String × Nat) × List (List Nat) :=
  (st.public_inputs, st.periodic_columns)

end SymbolTable

/-- A node reference into the algebraic graph (`NodeIndex`). -/
abbrev NodeIndex := Nat

/-- Modelled from the spec: the tagged expression-graph node variants of the
missing `transition_constraints` module. -/
inductive NodeOp where
  | Constant (value : Nat)
  | TraceColumnRef (is_aux : Bool) (index : Nat) (row_offset_next : Bool)
  | PeriodicColumnRef (index : Nat)
  | PublicInputRef (name : String) (element_index : Nat)
  | RandomValueRef (index : Nat)
  | BinaryAdd (lhs rhs : Nat)
  | BinarySub (lhs rhs : Nat)
  | BinaryMul (lhs rhs : Nat)
  | Exponent (base : Nat) (exponent : Nat)
deriving DecidableEq

/-- Modelled from the spec: the append-only, deduplicating DAG of expression
nodes; node references are indices into the node list. -/
structure AlgebraicGraph where
  nodes : List NodeOp
deriving DecidableEq

/-- Deduplicating insertion into a node list: if a structurally identical
node is present its index is returned, otherwise the node is appended. -/
def insertNode (op : NodeOp) : List NodeOp → List NodeOp × NodeIndex
  | [] => ([op], 0)
  | x :: xs =>
    if x = op then (x :: xs, 0)
    else
      let p := insertNode op xs
      (x :: p.1, p.2 + 1)

namespace AlgebraicGraph

/-- The empty graph. -/
def init : AlgebraicGraph := ⟨[]⟩

/-- Modelled from the spec: `insert(expr_tag, operands) -> node_ref` —
deduplicating insertion returning the (new or existing) node reference. -/
def insert (g : AlgebraicGraph) (op : NodeOp) : AlgebraicGraph × NodeIndex :=
  let p := insertNode op g.nodes
  (⟨p.1⟩, p.2)

end AlgebraicGraph

/-- Modelled from the spec: the degree record derived per transition
constraint — a base degree plus the multiset of periodic cycle-length
contributions (`TransitionConstraintDegree`). -/
structure TransitionConstraintDegree where
  base : Nat
  cycles : Multiset Nat
deriving DecidableEq

/-- Modelled from the spec: degree computation by recursive traversal.  The
fuel argument bounds the recursion depth; since every well-formed node only
references strictly smaller indices, fuel `i + 1` computes the true degree
of node `i`. -/
def degreeAux (nodes : List NodeOp) (cycle_lens : List Nat) :
    Nat → NodeIndex → TransitionConstraintDegree
  | 0, _ => ⟨0, 0⟩
  | fuel + 1, i =>
    match nodes[i]? with
    | none => ⟨0, 0⟩
    | some (.Constant _) => ⟨0, 0⟩
    | some (.TraceColumnRef _ _ _) => ⟨1, 0⟩
    | some (.PeriodicColumnRef index) => ⟨0, {cycle_lens.getD index 0 - 1}⟩
    | some (.PublicInputRef _ _) => ⟨0, 0⟩
    | some (.RandomValueRef _) => ⟨0, 0⟩
    | some (.BinaryAdd l r) =>
      let dl := degreeAux nodes cycle_lens fuel l
      let dr := degreeAux nodes cycle_lens fuel r
      ⟨max dl.base dr.base, dl.cycles ∪ dr.cycles⟩
    | some (.BinarySub l r) =>
      let dl := degreeAux nodes cycle_lens fuel l
      let dr := degreeAux nodes cycle_lens fuel r
      ⟨max dl.base dr.base, dl.cycles ∪ dr.cycles⟩
    | some (.BinaryMul l r) =>
      let dl := degreeAux nodes cycle_lens fuel l
      let dr := degreeAux nodes cycle_lens fuel r
      ⟨dl.base + dr.base, dl.cycles + dr.cycles⟩
    | some (.Exponent b k) =>
      let db := degreeAux nodes cycle_lens fuel b
      ⟨db.base * k, k • db.cycles⟩

/-- Modelled from the spec: `degree(node_ref) -> degree_record`. -/
def AlgebraicGraph.degree (g : AlgebraicGraph) (cycle_lens : List Nat)
    (i : NodeIndex) : TransitionConstraintDegree :=
  degreeAux g.nodes cycle_lens (i + 1) i

/-- A node's operand references all point to strictly smaller indices. -/
def nodeWF (i : Nat) : NodeOp → Bool
  | .BinaryAdd l r => decide (l < i) && decide (r < i)
  | .BinarySub l r => decide (l < i) && decide (r < i)
  | .BinaryMul l r => decide (l < i) && decide (r < i)
  | .Exponent b _ => decide (b < i)
  | _ => true

/-- Every node of the list, numbered from `k`, is down-referencing. -/
def nodesWF : List NodeOp → Nat → Bool
  | [], _ => true
  | n :: rest, k => nodeWF k n && nodesWF rest (k + 1)

/-- Acyclicity invariant of the graph: every node references only strictly
smaller node indices. -/
def AlgebraicGraph.wellFormed (g : AlgebraicGraph) : Bool :=
  nodesWF g.nodes 0

/-- Modelled from the spec: the transition-constraint store — the shared
algebraic graph plus the ordered lists of main and auxiliary constraint
roots. -/
structure TransitionConstraints where
  graph : AlgebraicGraph
  main : List NodeIndex
  aux : List NodeIndex
deriving DecidableEq

/-- Modelled from the spec: resolve a transition expression against the
symbol table and insert it bottom-up into the shared graph, returning the
updated graph, the root reference, and whether the expression touches any
auxiliary trace column. -/
def exprToGraph (st : SymbolTable) :
    TransitionExpr → AlgebraicGraph → Except SemanticError (AlgebraicGraph × NodeIndex × Bool)
  | .const v, g =>
    let p := g.insert (.Constant v)
    .ok (p.1, p.2, false)
  | .var name next, g =>
    match st.lookup name with
    | some (.MainTraceColumn index) =>
      let p := g.insert (.TraceColumnRef false index next)
      .ok (p.1, p.2, false)
    | some (.AuxTraceColumn index) =>
      let p := g.insert (.TraceColumnRef true index next)
      .ok (p.1, p.2, true)
    | some (.PeriodicColumn index _) =>
      let p := g.insert (.PeriodicColumnRef index)
      .ok (p.1, p.2, false)
    | _ => .error (.UndeclaredIdentifier name)
  | .pubRef name index, g =>
    match st.lookup name with
    | some (.PublicInput _) =>
      let p := g.insert (.PublicInputRef name index)
      .ok (p.1, p.2, false)
    | _ => .error (.UndeclaredIdentifier name)
  | .randRef index, g =>
    let p := g.insert (.RandomValueRef index)
    .ok (p.1, p.2, false)
  | .add lhs rhs, g => do
    let (g, il, al) ← exprToGraph st lhs g
    let (g, ir, ar) ← exprToGraph st rhs g
    let p := g.insert (.BinaryAdd il ir)
    .ok (p.1, p.2, al || ar)
  | .sub lhs rhs, g => do
    let (g, il, al) ← exprToGraph st lhs g
    let (g, ir, ar) ← exprToGraph st rhs g
    let p := g.insert (.BinarySub il ir)
    .ok (p.1, p.2, al || ar)
  | .mul lhs rhs, g => do
    let (g, il, al) ← exprToGraph st lhs g
    let (g, ir, ar) ← exprToGraph st rhs g
    let p := g.insert (.BinaryMul il ir)
    .ok (p.1, p.2, al || ar)
  | .exp base k, g => do
    let (g, ib, ab) ← exprToGraph st base g
    let p := g.insert (.Exponent ib k)
    .ok (p.1, p.2, ab)

namespace TransitionConstraints

/-- The empty store (`TransitionConstraints::default`). -/
def init : TransitionConstraints := ⟨AlgebraicGraph.init, [], []⟩

/-- Modelled from the spec: `insert(symbol_table, ast_constraint)` — build
the expression in the shared graph and append the root to the main or
auxiliary list (a constraint touching any auxiliary column is auxiliary). -/
def insert (tc : TransitionConstraints) (st : SymbolTable) (e : TransitionExpr) :
    Except SemanticError TransitionConstraints := do
  let (g, root, is_aux) ← exprToGraph st e tc.graph
  if is_aux then
    .ok { tc with graph := g, aux := tc.aux ++ [root] }
  else
    .ok { tc with graph := g, main := tc.main ++ [root] }

/-- `main_constraints` accessor. -/
def main_constraints (tc : TransitionConstraints) : List NodeIndex := tc.main

/-- `aux_constraints` accessor. -/
def aux_constraints (tc : TransitionConstraints) : List NodeIndex := tc.aux

/-- Modelled from the spec: `main_degrees` — map each stored main root
through the graph's degree operation, in insertion order. -/
def main_degrees (tc : TransitionConstraints) (cycle_lens : List Nat) :
    List TransitionConstraintDegree :=
  tc.main.map (tc.graph.degree cycle_lens)

/-- Modelled from the spec: `aux_degrees`. -/
def aux_degrees (tc : TransitionConstraints) (cycle_lens : List Nat) :
    List TransitionConstraintDegree :=
  tc.aux.map (tc.graph.degree cycle_lens)

end TransitionConstraints

/-- Modelled from the spec: the boundary-constraint store — per-column
first/last assertions for main and auxiliary columns, keyed by column
index. -/
structure BoundaryConstraints where
  main_first : List (Nat × BoundaryExpr)
  main_last : List (Nat × BoundaryExpr)
  aux_first : List (Nat × BoundaryExpr)
  aux_last : List (Nat × BoundaryExpr)
deriving DecidableEq

namespace BoundaryConstraints

/-- The empty store (`BoundaryConstraints::default`). -/
def init : BoundaryConstraints := ⟨[], [], [], []⟩

/-- Modelled from the spec: `insert(symbol_table, ast_constraint)` — reject a
next-row reference, resolve the column, and insert into the bucket selected
by column kind and boundary, failing with `DuplicateBoundaryAssertion` if
that column already has an assertion for that boundary. -/
def insert (bc : BoundaryConstraints) (st : SymbolTable) (c : BoundaryConstraintAst) :
    Except SemanticError BoundaryConstraints :=
  if c.row_offset_next then
    .error (.InvalidNextRowUsage c.column)
  else
    match st.lookup c.column with
    | some (.MainTraceColumn index) =>
      match c.boundary with
      | .first =>
        if (bc.main_first.lookup index).isSome then
          .error (.DuplicateBoundaryAssertion index c.boundary)
        else
          .ok { bc with main_first := bc.main_first ++ [(index, c.value)] }
      | .last =>
        if (bc.main_last.lookup index).isSome then
          .error (.DuplicateBoundaryAssertion index c.boundary)
        else
          .ok { bc with main_last := bc.main_last ++ [(index, c.value)] }
    | some (.AuxTraceColumn index) =>
      match c.boundary with
      | .first =>
        if (bc.aux_first.lookup index).isSome then
          .error (.DuplicateBoundaryAssertion index c.boundary)
        else
          .ok { bc with aux_first := bc.aux_first ++ [(index, c.value)] }
      | .last =>
        if (bc.aux_last.lookup index).isSome then
          .error (.DuplicateBoundaryAssertion index c.boundary)
        else
          .ok { bc with aux_last := bc.aux_last ++ [(index, c.value)] }
    | _ => .error (.UndeclaredIdentifier c.column)

/-- Number of main-column assertions (`main_len`). -/
def main_len (bc : BoundaryConstraints) : Nat :=
  bc.main_first.length + bc.main_last.length

/-- Number of auxiliary-column assertions (`aux_len`). -/
def aux_len (bc : BoundaryConstraints) : Nat :=
  bc.aux_first.length + bc.aux_last.length

end BoundaryConstraints

/-- `PublicInputs` type alias from `src/ir/src/lib.rs`. -/
abbrev PublicInputs := List (String × Nat)

/-- `PeriodicColumns` type alias from `src/ir/src/lib.rs`. -/
abbrev PeriodicColumns := List (List Nat)

/-- The `AirIR` struct from `src/ir/src/lib.rs`. -/
structure AirIR where
  air_name : String
  public_inputs : PublicInputs
  periodic_columns : PeriodicColumns
  boundary_constraints : BoundaryConstraints
  transition_constraints : TransitionConstraints
deriving DecidableEq

/-- Pass-1 step of `AirIR::from_source`: process one section's declarations
(AIR name, trace columns, public inputs, periodic columns); constraint
sections are skipped. -/
def processDecl (s : String × SymbolTable) (sec : SourceSection) :
    Except SemanticError (String × SymbolTable) :=
  match sec with
  | .AirDef name => .ok (name, s.2)
  | .TraceCols main_cols aux_cols => do
    let st ← s.2.insert_main_trace_columns main_cols
    let st ← st.insert_aux_trace_columns aux_cols
    .ok (s.1, st)
  | .PublicInputs inputs => do
    let st ← s.2.insert_public_inputs inputs
    .ok (s.1, st)
  | .PeriodicColumns columns => do
    let st ← s.2.insert_periodic_columns columns
    .ok (s.1, st)
  | _ => .ok s

/-- Pass-2 step of `AirIR::from_source`: process one section's constraints
against the fully built symbol table; declaration sections are skipped. -/
def processConstr (st : SymbolTable) (s : BoundaryConstraints × TransitionConstraints)
    (sec : SourceSection) :
    Except SemanticError (BoundaryConstraints × TransitionConstraints) :=
  match sec with
  | .BoundaryConstraints constraints => do
    let bc ← constraints.foldlM (fun bc c => bc.insert st c) s.1
    .ok (bc, s.2)
  | .TransitionConstraints constraints => do
    let tc ← constraints.foldlM (fun tc c => tc.insert st c) s.2
    .ok (s.1, tc)
  | _ => .ok s

/-- The two processing passes of `AirIR::from_source`: first all
declarations, then all constraints. -/
def processSource (source : List SourceSection) :
    Except SemanticError (String × SymbolTable × BoundaryConstraints × TransitionConstraints) := do
  let (air_name, symbol_table) ← source.foldlM processDecl ("CustomAir", SymbolTable.init)
  let (bc, tc) ← source.foldlM (processConstr symbol_table)
    (BoundaryConstraints.init, TransitionConstraints.init)
  .ok (air_name, symbol_table, bc, tc)

/-- `validate_boundary_constraints` from `src/ir/src/lib.rs`: error if all
four buckets are empty. -/
def validate_boundary_constraints (bc : BoundaryConstraints) :
    Except SemanticError Unit :=
  if bc.main_first.isEmpty && bc.main_last.isEmpty
      && bc.aux_first.isEmpty && bc.aux_last.isEmpty then
    .error (.MissingSection "Boundary Constraints Section is missing")
  else
    .ok ()

/-- `validate_transition_constraints` from `src/ir/src/lib.rs`: error if both
constraint lists are empty. -/
def validate_transition_constraints (tc : TransitionConstraints) :
    Except SemanticError Unit :=
  if tc.main_constraints.isEmpty && tc.aux_constraints.isEmpty then
    .error (.MissingSection "Transition Constraints Section is missing")
  else
    .ok ()

/-- `AirIR::from_source` from `src/ir/src/lib.rs`: two processing passes,
extraction of the declarations, section validation, and construction of the
immutable IR. -/
def from_source (source : List SourceSection) : Except SemanticError AirIR := do
  let (air_name, symbol_table, bc, tc) ← processSource source
  let (public_inputs, periodic_columns) := symbol_table.into_declarations
  validate_boundary_constraints bc
  validate_transition_constraints tc
  .ok ⟨air_name, public_inputs, periodic_columns, bc, tc⟩

namespace AirIR

/-- `AirIR::periodic_cycle_lens` accessor. -/
def periodic_cycle_lens (ir : AirIR) : List Nat :=
  ir.periodic_columns.map List.length

/-- `AirIR::num_main_assertions` accessor. -/
def num_main_assertions (ir : AirIR) : Nat :=
  ir.boundary_constraints.main_len

/-- `AirIR::num_aux_assertions` accessor. -/
def num_aux_assertions (ir : AirIR) : Nat :=
  ir.boundary_constraints.aux_len

/-- `AirIR::main_degrees` accessor. -/
def main_degrees (ir : AirIR) : List TransitionConstraintDegree :=
  ir.transition_constraints.main_degrees ir.periodic_cycle_lens

/-- `AirIR::aux_degrees` accessor. -/
def aux_degrees (ir : AirIR) : List TransitionConstraintDegree :=
  ir.transition_constraints.aux_degrees ir.periodic_cycle_lens

/-- `AirIR::main_transition_constraints` accessor. -/
def main_transition_constraints (ir : AirIR) : List NodeIndex :=
  ir.transition_constraints.main_constraints

/-- `AirIR::aux_transition_constraints` accessor. -/
def aux_transition_constraints (ir : AirIR) : List NodeIndex :=
  ir.transition_constraints.aux_constraints

/-- `AirIR::transition_graph` accessor. -/
def transition_graph (ir : AirIR) : AlgebraicGraph :=
  ir.transition_constraints.graph

end AirIR

/-- Is the section one handled by pass 1 (a declaration section)? -/
def isDeclSection : SourceSection → Bool
  | .AirDef _ => true
  | .TraceCols _ _ => true
  | .PublicInputs _ => true
  | .PeriodicColumns _ => true
  | _ => false

/-- Is the section one handled by pass 2 (a constraint section)? -/
def isConstraintSection : SourceSection → Bool
  | .BoundaryConstraints _ => true
  | .TransitionConstraints _ => true
  | _ => false

/-- The names of a source's AIR name declarations, in source order. -/
def airDefNames (source : List SourceSection) : List String :=
  source.filterMap fun sec =>
    match sec with
    | .AirDef name => some name
    | _ => none

/-- Insert a whole list of expressions into the empty graph, keeping only the
resulting graph (used to bound the node count of repeated insertions). -/
def insertAll (l : List NodeOp) : AlgebraicGraph :=
  l.foldl (fun g op => (g.insert op).1) AlgebraicGraph.init

/-- The symbol-table uniqueness invariant: the declared names, across all
kinds combined, are pairwise distinct. -/
def SymbolTable.keysNodup (st : SymbolTable) : Prop :=
  (st.identifiers.map Prod.fst).Nodup

/-- The two passes of `from_source`, applied to pre-split section lists:
declarations from `dl`, constraints from `cl`. -/
def processSourceParts (dl cl : List SourceSection) :
    Except SemanticError (String × SymbolTable × BoundaryConstraints × TransitionConstraints) := do
  let (air_name, symbol_table) ← dl.foldlM processDecl ("CustomAir", SymbolTable.init)
  let (bc, tc) ← cl.foldlM (processConstr symbol_table)
    (BoundaryConstraints.init, TransitionConstraints.init)
  .ok (air_name, symbol_table, bc, tc)

/-- A minimal valid source: one main column, first/last boundary assertions,
and the transition `clk' - (clk + 1) = 0`. -/
def demoSource : List SourceSection :=
  [.TraceCols ["clk"] [],
   .BoundaryConstraints [⟨"clk", false, .first, .Const 0⟩, ⟨"clk", false, .last, .Const 1⟩],
   .TransitionConstraints [.sub (.var "clk" true) (.add (.var "clk" false) (.const 1))]]

/-- `demoSource` preceded by two AIR name declarations. -/
def namedSource : List SourceSection :=
  .AirDef "FirstName" :: .AirDef "SecondName" :: demoSource

/-- `namedSource` with the two AIR name declarations transposed. -/
def namedSourceSwapped : List SourceSection :=
  .AirDef "SecondName" :: .AirDef "FirstName" :: demoSource

/-- A source with declarations and a transition constraint but no boundary
constraints. -/
def noBoundarySource : List SourceSection :=
  [.TraceCols ["clk"] [],
   .TransitionConstraints [.sub (.var "clk" true) (.add (.var "clk" false) (.const 1))]]

/-- A source with declarations and a boundary constraint but no transition
constraints. -/
def noTransitionSource : List SourceSection :=
  [.TraceCols ["clk"] [],
   .BoundaryConstraints [⟨"clk", false, .first, .Const 0⟩]]

/-- A valid source whose only transition constraint references a single
periodic column with the given value list. -/
def periodicOnlySource (values : List Nat) : List SourceSection :=
  [.TraceCols ["clk"] [],
   .PeriodicColumns [("p", values)],
   .BoundaryConstraints [⟨"clk", false, .first, .Const 0⟩],
   .TransitionConstraints [.var "p" false]]

/-! ### Lemmas about deduplicating node insertion -/

theorem insertNode_of_mem {op : NodeOp} :
    ∀ {xs : List NodeOp}, op ∈ xs → (insertNode op xs).1 = xs := by
  intro xs
  induction xs with
  | nil => intro h; cases h
  | cons x xs ih =>
    intro h
    by_cases hx : x = op
    · simp [insertNode, hx]
    · have hmem : op ∈ xs := by
        cases h with
        | head => exact absurd rfl hx
        | tail _ h => exact h
      simp [insertNode, hx, ih hmem]

theorem insertNode_of_not_mem {op : NodeOp} :
    ∀ {xs : List NodeOp}, op ∉ xs → insertNode op xs = (xs ++ [op], xs.length) := by
  intro xs
  induction xs with
  | nil => intro _; rfl
  | cons x xs ih =>
    intro h
    have hx : ¬x = op := fun he => h (he ▸ List.mem_cons_self x xs)
    have hmem : op ∉ xs := fun hm => h (List.mem_cons_of_mem x hm)
    simp [insertNode, hx, ih hmem]

theorem insertNode_get {op : NodeOp} :
    ∀ (xs : List NodeOp), (insertNode op xs).1.get? (insertNode op xs).2 = some op := by
  intro xs
  induction xs with
  | nil => rfl
  | cons x xs ih =>
    by_cases hx : x = op
    · simp [insertNode, hx]
    · simpa [insertNode, hx] using ih

theorem insertNode_append_self {op : NodeOp} :
    ∀ {xs : List NodeOp}, op ∉ xs → insertNode op (xs ++ [op]) = (xs ++ [op], xs.length) := by
  intro xs
  induction xs with
  | nil => intro _; simp [insertNode]
  | cons x xs ih =>
    intro h
    have hx : ¬x = op := fun he => h (he ▸ List.mem_cons_self x xs)
    have hmem : op ∉ xs := fun hm => h (List.mem_cons_of_mem x hm)
    simp [insertNode, hx, ih hmem]

theorem insertNode_mem_fst {op : NodeOp} {xs : List NodeOp} (a : NodeOp) :
    a ∈ (insertNode op xs).1 ↔ a ∈ xs ∨ a = op := by
  by_cases h : op ∈ xs
  · rw [insertNode_of_mem h]
    constructor
    · exact fun ha => Or.inl ha
    · rintro (ha | rfl)
      · exact ha
      · exact h
  · rw [insertNode_of_not_mem h]
    simp

theorem insertNode_nodup {op : NodeOp} {xs : List NodeOp} (h : xs.Nodup) :
    (insertNode op xs).1.Nodup := by
  by_cases hm : op ∈ xs
  · rw [insertNode_of_mem hm]; exact h
  · rw [insertNode_of_not_mem hm]
    rw [List.nodup_append]
    refine ⟨h, List.nodup_singleton op, ?_⟩
    intro a ha hb
    rw [List.mem_singleton] at hb
    exact hm (hb ▸ ha)

theorem insertAll_foldl_nodup :
    ∀ (l : List NodeOp) (g : AlgebraicGraph), g.nodes.Nodup →
      (l.foldl (fun g op => (g.insert op).1) g).nodes.Nodup := by
  intro l
  induction l with
  | nil => intro g h; exact h
  | cons x xs ih =>
    intro g h
    exact ih _ (insertNode_nodup h)

theorem insertAll_foldl_subset :
    ∀ (l : List NodeOp) (g : AlgebraicGraph) (a : NodeOp),
      a ∈ (l.foldl (fun g op => (g.insert op).1) g).nodes → a ∈ g.nodes ∨ a ∈ l := by
  intro l
  induction l with
  | nil => intro g a h; exact Or.inl h
  | cons x xs ih =>
    intro g a h
    rcases ih _ a h with h' | h'
    · rcases (insertNode_mem_fst a).mp h' with h'' | rfl
      · exact Or.inl h''
      · exact Or.inr (List.mem_cons_self _ _)
    · exact Or.inr (List.mem_cons_of_mem _ h')

theorem nodup_subset_length_le_dedup {ns l : List NodeOp}
    (h1 : ns.Nodup) (h2 : ∀ a ∈ ns, a ∈ l) : ns.length ≤ l.dedup.length := by
  have hsub : ns.toFinset ⊆ l.toFinset := by
    intro a ha
    rw [List.mem_toFinset] at ha ⊢
    exact h2 a ha
  have hcard := Finset.card_le_card hsub
  rw [List.toFinset_card_of_nodup h1] at hcard
  rw [List.card_toFinset] at hcard
  exact hcard

/-- C2: inserting an expression whose tag and operand references are
identical to an already-present node leaves the graph unchanged and returns
a reference to the existing node (re-insertion is idempotent); node lists
stay free of structurally identical duplicates; and the node count after
inserting any list of expressions into the empty graph is bounded by the
number of syntactically distinct expressions in that list. -/
theorem graph_dedup (g : AlgebraicGraph) (op : NodeOp) (l : List NodeOp) :
    (op ∈ g.nodes → (g.insert op).1 = g) ∧
    ((g.insert op).1.nodes.get? (g.insert op).2 = some op) ∧
    ((g.insert op).1.insert op = g.insert op) ∧
    (g.nodes.Nodup → (g.insert op).1.nodes.Nodup) ∧
    (insertAll l).nodes.Nodup ∧
    (insertAll l).nodes.length ≤ l.dedup.length := by
  refine ⟨?_, ?_, ?_, ?_, ?_, ?_⟩
  · intro h
    show (⟨(insertNode op g.nodes).1⟩ : AlgebraicGraph) = g
    rw [insertNode_of_mem h]
  · exact insertNode_get g.nodes
  · by_cases h : op ∈ g.nodes
    · have h1 : (g.insert op).1 = g := by
        show (⟨(insertNode op g.nodes).1⟩ : AlgebraicGraph) = g
        rw [insertNode_of_mem h]
      rw [h1]
    · have h1 : insertNode op g.nodes = (g.nodes ++ [op], g.nodes.length) :=
        insertNode_of_not_mem h
      have h2 : insertNode op (g.nodes ++ [op]) = (g.nodes ++ [op], g.nodes.length) :=
        insertNode_append_self h
      simp [AlgebraicGraph.insert, h1, h2]
  · exact insertNode_nodup
  · exact insertAll_foldl_nodup l AlgebraicGraph.init (List.nodup_nil)
  · refine nodup_subset_length_le_dedup
      (insertAll_foldl_nodup l AlgebraicGraph.init List.nodup_nil) ?_
    intro a ha
    rcases insertAll_foldl_subset l AlgebraicGraph.init a ha with h | h
    · cases h
    · exact h

/-- C2 witness: the dedup properties at a concrete graph and insertion
list — re-inserting a present constant returns the unchanged graph, keeps
the node list duplicate-free, and three insertions with one repetition
produce at most two nodes. -/
theorem graph_dedup_witness :
    ((AlgebraicGraph.mk [NodeOp.Constant 1]).insert (NodeOp.Constant 1)).1 =
      AlgebraicGraph.mk [NodeOp.Constant 1] ∧
    ((AlgebraicGraph.mk [NodeOp.Constant 1]).insert (NodeOp.Constant 1)).1.nodes.Nodup ∧
    (insertAll [NodeOp.Constant 1, NodeOp.Constant 1, NodeOp.Constant 2]).nodes.length ≤ 2 := by
  have h := graph_dedup (AlgebraicGraph.mk [NodeOp.Constant 1]) (NodeOp.Constant 1)
    [NodeOp.Constant 1, NodeOp.Constant 1, NodeOp.Constant 2]
  refine ⟨h.1 (by decide), h.2.2.2.1 (by decide), le_trans h.2.2.2.2.2 (by decide)⟩

/-! ### Lemmas about the degree computation -/

theorem nodesWF_get :
    ∀ (l : List NodeOp) (k : Nat), nodesWF l k = true →
      ∀ (i : Nat) (op : NodeOp), l[i]? = some op → nodeWF (k + i) op = true := by
  intro l
  induction l with
  | nil => intro k _ i op h; simp at h
  | cons n rest ih =>
    intro k hwf i op h
    rw [nodesWF, Bool.and_eq_true] at hwf
    cases i with
    | zero =>
      rw [List.getElem?_cons_zero] at h
      cases h
      simpa using hwf.1
    | succ j =>
      rw [List.getElem?_cons_succ] at h
      have := ih (k + 1) hwf.2 j op h
      have harith : k + 1 + j = k + (j + 1) := by omega
      rw [harith] at this
      exact this

theorem degreeAux_fuel_eq (nodes : List NodeOp) (cl : List Nat)
    (hwf : nodesWF nodes 0 = true) :
    ∀ (i f : Nat), i < f →
      degreeAux nodes cl f i = degreeAux nodes cl (i + 1) i := by
  intro i
  induction i using Nat.strong_induction_on with
  | _ i ih =>
    intro f hf
    obtain ⟨f₀, rfl⟩ : ∃ f₀, f = f₀ + 1 := ⟨f - 1, by omega⟩
    cases hg : nodes[i]? with
    | none => simp [degreeAux, hg]
    | some op =>
      have hop : nodeWF i op = true := by
        have := nodesWF_get nodes 0 hwf i op hg
        simpa using this
      cases op with
      | Constant v => simp [degreeAux, hg]
      | TraceColumnRef a b c => simp [degreeAux, hg]
      | PeriodicColumnRef idx => simp [degreeAux, hg]
      | PublicInputRef nm e => simp [degreeAux, hg]
      | RandomValueRef idx => simp [degreeAux, hg]
      | BinaryAdd l r =>
        simp only [nodeWF, Bool.and_eq_true, decide_eq_true_eq] at hop
        obtain ⟨hl, hr⟩ := hop
        have hlf : l < f₀ := by omega
        have hrf : r < f₀ := by omega
        simp only [degreeAux, hg]
        rw [ih l hl f₀ hlf, ih l hl i hl, ih r hr f₀ hrf, ih r hr i hr]
      | BinarySub l r =>
        simp only [nodeWF, Bool.and_eq_true, decide_eq_true_eq] at hop
        obtain ⟨hl, hr⟩ := hop
        have hlf : l < f₀ := by omega
        have hrf : r < f₀ := by omega
        simp only [degreeAux, hg]
        rw [ih l hl f₀ hlf, ih l hl i hl, ih r hr f₀ hrf, ih r hr i hr]
      | BinaryMul l r =>
        simp only [nodeWF, Bool.and_eq_true, decide_eq_true_eq] at hop
        obtain ⟨hl, hr⟩ := hop
        have hlf : l < f₀ := by omega
        have hrf : r < f₀ := by omega
        simp only [degreeAux, hg]
        rw [ih l hl f₀ hlf, ih l hl i hl, ih r hr f₀ hrf, ih r hr i hr]
      | Exponent b k =>
        simp only [nodeWF, decide_eq_true_eq] at hop
        have hbf : b < f₀ := by omega
        simp only [degreeAux, hg]
        rw [ih b hop f₀ hbf, ih b hop i hop]

theorem wellFormed_operand_lt {g : AlgebraicGraph} (hwf : g.wellFormed = true)
    {i : Nat} {op : NodeOp} (h : g.nodes[i]? = some op) :
    nodeWF i op = true := by
  have := nodesWF_get g.nodes 0 hwf i op h
  simpa using this

/-- C1: the degree computation follows the stated rules on every node of a
well-formed algebraic graph: `Constant`, `PublicInputRef` and
`RandomValueRef` have base degree 0 and no cycle contributions;
`TraceColumnRef` has base degree 1; `PeriodicColumnRef idx` has base degree
0 and contributes `cycle_length(idx) - 1` to the cycle-length multiset;
add/sub take the max of the base degrees and union the cycle multisets; mul
adds the base degrees and adds the cycle multisets (union with
multiplicity); `Exp(b, k)` multiplies the base degree by `k` and scales
every cycle contribution by `k`. -/
theorem degree_computation_rules (g : AlgebraicGraph) (cl : List Nat) (i : Nat)
    (hwf : g.wellFormed = true) :
    (∀ v, g.nodes[i]? = some (.Constant v) → g.degree cl i = ⟨0, 0⟩) ∧
    (∀ a idx nxt, g.nodes[i]? = some (.TraceColumnRef a idx nxt) →
      g.degree cl i = ⟨1, 0⟩) ∧
    (∀ idx, g.nodes[i]? = some (.PeriodicColumnRef idx) →
      g.degree cl i = ⟨0, {cl.getD idx 0 - 1}⟩) ∧
    (∀ nm e, g.nodes[i]? = some (.PublicInputRef nm e) → g.degree cl i = ⟨0, 0⟩) ∧
    (∀ idx, g.nodes[i]? = some (.RandomValueRef idx) → g.degree cl i = ⟨0, 0⟩) ∧
    (∀ l r, g.nodes[i]? = some (.BinaryAdd l r) →
      g.degree cl i = ⟨max (g.degree cl l).base (g.degree cl r).base,
        (g.degree cl l).cycles ∪ (g.degree cl r).cycles⟩) ∧
    (∀ l r, g.nodes[i]? = some (.BinarySub l r) →
      g.degree cl i = ⟨max (g.degree cl l).base (g.degree cl r).base,
        (g.degree cl l).cycles ∪ (g.degree cl r).cycles⟩) ∧
    (∀ l r, g.nodes[i]? = some (.BinaryMul l r) →
      g.degree cl i = ⟨(g.degree cl l).base + (g.degree cl r).base,
        (g.degree cl l).cycles + (g.degree cl r).cycles⟩) ∧
    (∀ b k, g.nodes[i]? = some (.Exponent b k) →
      g.degree cl i = ⟨(g.degree cl b).base * k, k • (g.degree cl b).cycles⟩) := by
  refine ⟨?_, ?_, ?_, ?_, ?_, ?_, ?_, ?_, ?_⟩
  · intro v h; simp [AlgebraicGraph.degree, degreeAux, h]
  · intro a idx nxt h; simp [AlgebraicGraph.degree, degreeAux, h]
  · intro idx h; simp [AlgebraicGraph.degree, degreeAux, h]
  · intro nm e h; simp [AlgebraicGraph.degree, degreeAux, h]
  · intro idx h; simp [AlgebraicGraph.degree, degreeAux, h]
  · intro l r h
    have hop := wellFormed_operand_lt hwf h
    simp only [nodeWF, Bool.and_eq_true, decide_eq_true_eq] at hop
    obtain ⟨hl, hr⟩ := hop
    show degreeAux g.nodes cl (i + 1) i = _
    simp only [degreeAux, h]
    rw [degreeAux_fuel_eq g.nodes cl hwf l i hl, degreeAux_fuel_eq g.nodes cl hwf r i hr]
    rfl
  · intro l r h
    have hop := wellFormed_operand_lt hwf h
    simp only [nodeWF, Bool.and_eq_true, decide_eq_true_eq] at hop
    obtain ⟨hl, hr⟩ := hop
    show degreeAux g.nodes cl (i + 1) i = _
    simp only [degreeAux, h]
    rw [degreeAux_fuel_eq g.nodes cl hwf l i hl, degreeAux_fuel_eq g.nodes cl hwf r i hr]
    rfl
  · intro l r h
    have hop := wellFormed_operand_lt hwf h
    simp only [nodeWF, Bool.and_eq_true, decide_eq_true_eq] at hop
    obtain ⟨hl, hr⟩ := hop
    show degreeAux g.nodes cl (i + 1) i = _
    simp only [degreeAux, h]
    rw [degreeAux_fuel_eq g.nodes cl hwf l i hl, degreeAux_fuel_eq g.nodes cl hwf r i hr]
    rfl
  · intro b k h
    have hop := wellFormed_operand_lt hwf h
    simp only [nodeWF, decide_eq_true_eq] at hop
    show degreeAux g.nodes cl (i + 1) i = _
    simp only [degreeAux, h]
    rw [degreeAux_fuel_eq g.nodes cl hwf b i hop]
    rfl

/-- C1 witness: the degree rules evaluated on a concrete well-formed graph
holding every node variant, with one periodic column of cycle length 4. -/
theorem degree_computation_rules_witness :
    (AlgebraicGraph.mk [NodeOp.Constant 7, NodeOp.TraceColumnRef false 0 false,
      NodeOp.PeriodicColumnRef 0, NodeOp.PublicInputRef "pi" 0,
      NodeOp.RandomValueRef 2, NodeOp.BinaryAdd 1 2, NodeOp.BinaryMul 1 1,
      NodeOp.Exponent 1 3, NodeOp.BinarySub 5 6]).degree [4] 8 =
      ⟨2, {3}⟩ := by
  have h := degree_computation_rules (AlgebraicGraph.mk [NodeOp.Constant 7,
    NodeOp.TraceColumnRef false 0 false, NodeOp.PeriodicColumnRef 0,
    NodeOp.PublicInputRef "pi" 0, NodeOp.RandomValueRef 2, NodeOp.BinaryAdd 1 2,
    NodeOp.BinaryMul 1 1, NodeOp.Exponent 1 3, NodeOp.BinarySub 5 6]) [4] 8
    (by decide)
  rw [h.2.2.2.2.2.2.1 5 6 (by decide)]
  decide

/-! ### Lemmas about the symbol table -/

theorem lookup_isSome_iff_mem_keys :
    ∀ (l : List (String × IdentifierType)) (a : String),
      (l.lookup a).isSome = true ↔ a ∈ l.map Prod.fst := by
  intro l a
  induction l with
  | nil => simp [List.lookup]
  | cons x xs ih =>
    by_cases h : a = x.1
    · simp [List.lookup, h]
    · have hbeq : (a == x.1) = false := by
        rw [beq_eq_false_iff_ne]
        exact h
      simp [List.lookup, hbeq, ih, h]

theorem foldlM_except_inv {α σ : Type} {P : σ → Prop}
    (step : σ → α → Except SemanticError σ)
    (hstep : ∀ s a s', P s → step s a = .ok s' → P s') :
    ∀ (l : List α) (s s' : σ), P s → l.foldlM step s = .ok s' → P s' := by
  intro l
  induction l with
  | nil =>
    intro s s' h heq
    simp only [List.foldlM_nil] at heq
    cases heq
    exact h
  | cons x xs ih =>
    intro s s' h heq
    rw [List.foldlM_cons] at heq
    cases hx : step s x with
    | error e => rw [hx] at heq; cases heq
    | ok s₁ =>
      rw [hx] at heq
      exact ih s₁ s' (hstep s x s₁ h hx) heq

theorem insert_symbol_ok {st st' : SymbolTable} {name : String} {ty : IdentifierType}
    (h : st.insert_symbol name ty = .ok st') :
    (st.lookup name) = none ∧ st'.identifiers = st.identifiers ++ [(name, ty)] ∧
      st'.public_inputs = st.public_inputs ∧ st'.periodic_columns = st.periodic_columns := by
  rw [SymbolTable.insert_symbol] at h
  by_cases hl : (st.lookup name).isSome = true
  · rw [if_pos hl] at h; cases h
  · rw [if_neg hl] at h
    cases h
    refine ⟨?_, rfl, rfl, rfl⟩
    cases hv : st.lookup name with
    | none => rfl
    | some v => rw [hv] at hl; simp at hl

theorem insert_symbol_keysNodup {st st' : SymbolTable} {name : String}
    {ty : IdentifierType} (hn : st.keysNodup)
    (h : st.insert_symbol name ty = .ok st') : st'.keysNodup := by
  obtain ⟨hl, hid, -, -⟩ := insert_symbol_ok h
  rw [SymbolTable.keysNodup, hid, List.map_append, List.nodup_append]
  refine ⟨hn, by simp, ?_⟩
  intro a ha hb
  simp only [List.map_cons, List.map_nil, List.mem_singleton] at hb
  rw [hb] at ha
  have : (st.identifiers.lookup name).isSome = true :=
    (lookup_isSome_iff_mem_keys _ _).mpr ha
  rw [show st.identifiers.lookup name = st.lookup name from rfl, hl] at this
  cases this

/-- C6: declaring a name that already exists in the symbol table under any
kind fails with `DuplicateIdentifier`, and each of the four declaration
operations preserves the invariant that accepted names are unique across
all kinds combined. -/
theorem symbol_table_uniqueness (st st' : SymbolTable) (name : String)
    (ty : IdentifierType) (mains auxs : List String)
    (pis : List (String × Nat)) (pcs : List (String × List Nat)) :
    ((st.lookup name).isSome = true →
      st.insert_symbol name ty = .error (.DuplicateIdentifier name)) ∧
    (st.keysNodup → st.insert_main_trace_columns mains = .ok st' → st'.keysNodup) ∧
    (st.keysNodup → st.insert_aux_trace_columns auxs = .ok st' → st'.keysNodup) ∧
    (st.keysNodup → st.insert_public_inputs pis = .ok st' → st'.keysNodup) ∧
    (st.keysNodup → st.insert_periodic_columns pcs = .ok st' → st'.keysNodup) := by
  refine ⟨?_, ?_, ?_, ?_, ?_⟩
  · intro h
    rw [SymbolTable.insert_symbol, if_pos h]
  · intro hn h
    refine foldlM_except_inv _ ?_ mains st st' hn h
    intro s a s' hp hstep
    exact insert_symbol_keysNodup hp hstep
  · intro hn h
    refine foldlM_except_inv _ ?_ auxs st st' hn h
    intro s a s' hp hstep
    exact insert_symbol_keysNodup hp hstep
  · intro hn h
    refine foldlM_except_inv _ ?_ pis st st' hn h
    intro s a s' hp hstep
    cases hs : s.insert_symbol a.1 (.PublicInput a.2) with
    | error e => rw [hs] at hstep; cases hstep
    | ok s₁ =>
      rw [hs] at hstep
      have hstep2 : Except.ok
          ({ s₁ with public_inputs := s₁.public_inputs ++ [a] } : SymbolTable) =
          Except.ok s' := hstep
      injection hstep2 with h2
      have hk : s₁.keysNodup := insert_symbol_keysNodup hp hs
      rw [← h2]
      exact hk
  · intro hn h
    refine foldlM_except_inv _ ?_ pcs st st' hn h
    intro s a s' hp hstep
    cases hs : s.insert_symbol a.1 (.PeriodicColumn s.periodic_columns.length a.2.length) with
    | error e => rw [hs] at hstep; cases hstep
    | ok s₁ =>
      rw [hs] at hstep
      have hstep2 : (if is_power_of_two a.2.length = true ∧ MIN_CYCLE_LENGTH ≤ a.2.length then
          Except.ok ({ s₁ with periodic_columns := s₁.periodic_columns ++ [a.2] } : SymbolTable)
        else
          Except.error (SemanticError.InvalidPeriodicColumnCycle a.1 a.2.length)) =
          Except.ok s' := hstep
      by_cases hc : is_power_of_two a.2.length = true ∧ MIN_CYCLE_LENGTH ≤ a.2.length
      · rw [if_pos hc] at hstep2
        injection hstep2 with h2
        have hk : s₁.keysNodup := insert_symbol_keysNodup hp hs
        rw [← h2]
        exact hk
      · rw [if_neg hc] at hstep2
        cases hstep2

/-- C6 witness: re-declaring `clk` (as a public input) after it was declared
as a main trace column fails with `DuplicateIdentifier`, and a successful
mixed sequence of declarations keeps all names unique. -/
theorem symbol_table_uniqueness_witness :
    (SymbolTable.mk [("clk", .MainTraceColumn 0)] [] []).insert_symbol "clk"
      (.PublicInput 2) = .error (.DuplicateIdentifier "clk") ∧
    (SymbolTable.mk [("clk", .MainTraceColumn 0)] [] []).keysNodup := by
  have h := symbol_table_uniqueness (SymbolTable.mk [("clk", .MainTraceColumn 0)] [] [])
    (SymbolTable.mk [("clk", .MainTraceColumn 0), ("a", .AuxTraceColumn 0)] [] [])
    "clk" (.PublicInput 2) [] ["a"] [] []
  refine ⟨h.1 (by decide), ?_⟩
  have h2 := h.2.2.1 (by
    rw [SymbolTable.keysNodup]
    decide) (by decide)
  rw [SymbolTable.keysNodup]
  decide

/-! ### Boundary-constraint store -/

/-- C7: inserting a boundary constraint whose resolved column already has an
assertion for the same boundary in the corresponding bucket fails with
`DuplicateBoundaryAssertion`; otherwise the assertion is recorded in that
bucket keyed by the column's index. -/
theorem boundary_duplicate_assertion (bc : BoundaryConstraints) (st : SymbolTable)
    (c : BoundaryConstraintAst) (index : Nat) (hnext : c.row_offset_next = false) :
    (st.lookup c.column = some (.MainTraceColumn index) →
      ((c.boundary = .first ∧ (bc.main_first.lookup index).isSome = true →
        bc.insert st c = .error (.DuplicateBoundaryAssertion index c.boundary)) ∧
       (c.boundary = .first ∧ bc.main_first.lookup index = none →
        bc.insert st c = .ok { bc with main_first := bc.main_first ++ [(index, c.value)] }) ∧
       (c.boundary = .last ∧ (bc.main_last.lookup index).isSome = true →
        bc.insert st c = .error (.DuplicateBoundaryAssertion index c.boundary)) ∧
       (c.boundary = .last ∧ bc.main_last.lookup index = none →
        bc.insert st c = .ok { bc with main_last := bc.main_last ++ [(index, c.value)] }))) ∧
    (st.lookup c.column = some (.AuxTraceColumn index) →
      ((c.boundary = .first ∧ (bc.aux_first.lookup index).isSome = true →
        bc.insert st c = .error (.DuplicateBoundaryAssertion index c.boundary)) ∧
       (c.boundary = .first ∧ bc.aux_first.lookup index = none →
        bc.insert st c = .ok { bc with aux_first := bc.aux_first ++ [(index, c.value)] }) ∧
       (c.boundary = .last ∧ (bc.aux_last.lookup index).isSome = true →
        bc.insert st c = .error (.DuplicateBoundaryAssertion index c.boundary)) ∧
       (c.boundary = .last ∧ bc.aux_last.lookup index = none →
        bc.insert st c = .ok { bc with aux_last := bc.aux_last ++ [(index, c.value)] }))) := by
  obtain ⟨col, nxt, b, v⟩ := c
  simp only at hnext
  subst hnext
  constructor
  · intro hres
    refine ⟨?_, ?_, ?_, ?_⟩
    · rintro ⟨hb, hdup⟩
      simp only at hb
      subst hb
      simp [BoundaryConstraints.insert, hres, hdup]
    · rintro ⟨hb, hdup⟩
      simp only at hb
      subst hb
      simp [BoundaryConstraints.insert, hres, hdup]
    · rintro ⟨hb, hdup⟩
      simp only at hb
      subst hb
      simp [BoundaryConstraints.insert, hres, hdup]
    · rintro ⟨hb, hdup⟩
      simp only at hb
      subst hb
      simp [BoundaryConstraints.insert, hres, hdup]
  · intro hres
    refine ⟨?_, ?_, ?_, ?_⟩
    · rintro ⟨hb, hdup⟩
      simp only at hb
      subst hb
      simp [BoundaryConstraints.insert, hres, hdup]
    · rintro ⟨hb, hdup⟩
      simp only at hb
      subst hb
      simp [BoundaryConstraints.insert, hres, hdup]
    · rintro ⟨hb, hdup⟩
      simp only at hb
      subst hb
      simp [BoundaryConstraints.insert, hres, hdup]
    · rintro ⟨hb, hdup⟩
      simp only at hb
      subst hb
      simp [BoundaryConstraints.insert, hres, hdup]

/-- C7 witness: with `clk` resolved to main column 0, a second `first`
assertion for `clk` fails with `DuplicateBoundaryAssertion 0 first`, while a
`last` assertion on an empty bucket is recorded under column index 0. -/
theorem boundary_duplicate_assertion_witness :
    (BoundaryConstraints.mk [(0, .Const 0)] [] [] []).insert
      (SymbolTable.mk [("clk", .MainTraceColumn 0)] [] [])
      ⟨"clk", false, .first, .Const 1⟩ =
      .error (.DuplicateBoundaryAssertion 0 .first) ∧
    (BoundaryConstraints.mk [(0, .Const 0)] [] [] []).insert
      (SymbolTable.mk [("clk", .MainTraceColumn 0)] [] [])
      ⟨"clk", false, .last, .Const 1⟩ =
      .ok (BoundaryConstraints.mk [(0, .Const 0)] [(0, .Const 1)] [] []) := by
  have h1 := boundary_duplicate_assertion (BoundaryConstraints.mk [(0, .Const 0)] [] [] [])
    (SymbolTable.mk [("clk", .MainTraceColumn 0)] [] [])
    ⟨"clk", false, .first, .Const 1⟩ 0 rfl
  have h2 := boundary_duplicate_assertion (BoundaryConstraints.mk [(0, .Const 0)] [] [] [])
    (SymbolTable.mk [("clk", .MainTraceColumn 0)] [] [])
    ⟨"clk", false, .last, .Const 1⟩ 0 rfl
  refine ⟨(h1.1 (by decide)).1 ⟨rfl, by decide⟩, (h2.1 (by decide)).2.2.2 ⟨rfl, by decide⟩⟩

/-! ### Lemmas about the two-pass orchestrator -/

theorem processDecl_skip {s : String × SymbolTable} {sec : SourceSection}
    (h : isDeclSection sec = false) : processDecl s sec = .ok s := by
  cases sec with
  | AirDef n => simp [isDeclSection] at h
  | TraceCols mc ac => simp [isDeclSection] at h
  | PublicInputs i => simp [isDeclSection] at h
  | PeriodicColumns c => simp [isDeclSection] at h
  | BoundaryConstraints c => rfl
  | TransitionConstraints c => rfl

theorem processConstr_skip {st : SymbolTable}
    {s : BoundaryConstraints × TransitionConstraints} {sec : SourceSection}
    (h : isConstraintSection sec = false) : processConstr st s sec = .ok s := by
  cases sec with
  | AirDef n => rfl
  | TraceCols mc ac => rfl
  | PublicInputs i => rfl
  | PeriodicColumns c => rfl
  | BoundaryConstraints c => simp [isConstraintSection] at h
  | TransitionConstraints c => simp [isConstraintSection] at h

theorem foldlM_processDecl_filter :
    ∀ (l : List SourceSection) (s : String × SymbolTable),
      l.foldlM processDecl s = (l.filter isDeclSection).foldlM processDecl s := by
  intro l
  induction l with
  | nil => intro s; rfl
  | cons sec l ih =>
    intro s
    by_cases h : isDeclSection sec = true
    · rw [List.filter_cons_of_pos h, List.foldlM_cons, List.foldlM_cons]
      cases hx : processDecl s sec with
      | error e => rfl
      | ok s₁ =>
        show l.foldlM processDecl s₁ = (l.filter isDeclSection).foldlM processDecl s₁
        exact ih s₁
    · rw [List.filter_cons_of_neg (by simpa using h), List.foldlM_cons,
        processDecl_skip (by simpa using h)]
      show l.foldlM processDecl s = (l.filter isDeclSection).foldlM processDecl s
      exact ih s

theorem foldlM_processConstr_filter :
    ∀ (l : List SourceSection) (st : SymbolTable)
      (s : BoundaryConstraints × TransitionConstraints),
      l.foldlM (processConstr st) s =
        (l.filter isConstraintSection).foldlM (processConstr st) s := by
  intro l
  induction l with
  | nil => intro st s; rfl
  | cons sec l ih =>
    intro st s
    by_cases h : isConstraintSection sec = true
    · rw [List.filter_cons_of_pos h, List.foldlM_cons, List.foldlM_cons]
      cases hx : processConstr st s sec with
      | error e => rfl
      | ok s₁ =>
        show l.foldlM (processConstr st) s₁ =
          (l.filter isConstraintSection).foldlM (processConstr st) s₁
        exact ih st s₁
    · rw [List.filter_cons_of_neg (by simpa using h), List.foldlM_cons,
        processConstr_skip (by simpa using h)]
      show l.foldlM (processConstr st) s =
        (l.filter isConstraintSection).foldlM (processConstr st) s
      exact ih st s

theorem processSource_eq_parts (source : List SourceSection) :
    processSource source =
      processSourceParts (source.filter isDeclSection) (source.filter isConstraintSection) := by
  rw [processSource, processSourceParts, ← foldlM_processDecl_filter]
  cases hf : source.foldlM processDecl ("CustomAir", SymbolTable.init) with
  | error e => rfl
  | ok p =>
    show (do
      let (bc, tc) ← source.foldlM (processConstr p.2)
        (BoundaryConstraints.init, TransitionConstraints.init)
      Except.ok (p.1, p.2, bc, tc) : Except SemanticError _) = (do
      let (bc, tc) ← (source.filter isConstraintSection).foldlM (processConstr p.2)
        (BoundaryConstraints.init, TransitionConstraints.init)
      Except.ok (p.1, p.2, bc, tc))
    rw [foldlM_processConstr_filter]

theorem processSource_congr {l₁ l₂ : List SourceSection}
    (hdecl : l₁.filter isDeclSection = l₂.filter isDeclSection)
    (hconstr : l₁.filter isConstraintSection = l₂.filter isConstraintSection) :
    processSource l₁ = processSource l₂ := by
  rw [processSource_eq_parts, processSource_eq_parts, hdecl, hconstr]

theorem from_source_congr {l₁ l₂ : List SourceSection}
    (hdecl : l₁.filter isDeclSection = l₂.filter isDeclSection)
    (hconstr : l₁.filter isConstraintSection = l₂.filter isConstraintSection) :
    from_source l₁ = from_source l₂ := by
  rw [from_source, from_source, processSource_congr hdecl hconstr]

theorem from_source_ok_elim {source : List SourceSection} {ir : AirIR}
    (h : from_source source = .ok ir) :
    ∃ r, processSource source = .ok r ∧
      ir = ⟨r.1, r.2.1.public_inputs, r.2.1.periodic_columns, r.2.2.1, r.2.2.2⟩ ∧
      validate_boundary_constraints r.2.2.1 = .ok () ∧
      validate_transition_constraints r.2.2.2 = .ok () := by
  rw [from_source] at h
  cases hps : processSource source with
  | error e => rw [hps] at h; cases h
  | ok r =>
    rw [hps] at h
    refine ⟨r, rfl, ?_⟩
    have h1 : (do
        validate_boundary_constraints r.2.2.1
        validate_transition_constraints r.2.2.2
        Except.ok (⟨r.1, r.2.1.public_inputs, r.2.1.periodic_columns, r.2.2.1, r.2.2.2⟩ : AirIR) :
        Except SemanticError AirIR) = .ok ir := h
    cases hb : validate_boundary_constraints r.2.2.1 with
    | error e => rw [hb] at h1; cases h1
    | ok u =>
      rw [hb] at h1
      cases u
      have h2 : (do
          validate_transition_constraints r.2.2.2
          Except.ok (⟨r.1, r.2.1.public_inputs, r.2.1.periodic_columns, r.2.2.1, r.2.2.2⟩ : AirIR) :
          Except SemanticError AirIR) = .ok ir := h1
      cases ht : validate_transition_constraints r.2.2.2 with
      | error e => rw [ht] at h2; cases h2
      | ok u =>
        rw [ht] at h2
        cases u
        have h3 : Except.ok (⟨r.1, r.2.1.public_inputs, r.2.1.periodic_columns,
            r.2.2.1, r.2.2.2⟩ : AirIR) = .ok ir := h2
        injection h3 with h4
        exact ⟨h4.symm, rfl, rfl⟩

theorem filter_decl_of_constr (l : List SourceSection) :
    (l.filter isConstraintSection).filter isDeclSection = [] := by
  induction l with
  | nil => rfl
  | cons sec l ih => cases sec <;> simp [isDeclSection, isConstraintSection, ih]

theorem filter_constr_of_decl (l : List SourceSection) :
    (l.filter isDeclSection).filter isConstraintSection = [] := by
  induction l with
  | nil => rfl
  | cons sec l ih => cases sec <;> simp [isDeclSection, isConstraintSection, ih]

theorem filter_decl_idem (l : List SourceSection) :
    (l.filter isDeclSection).filter isDeclSection = l.filter isDeclSection := by
  induction l with
  | nil => rfl
  | cons sec l ih => cases sec <;> simp [isDeclSection, ih]

theorem filter_constr_idem (l : List SourceSection) :
    (l.filter isConstraintSection).filter isConstraintSection =
      l.filter isConstraintSection := by
  induction l with
  | nil => rfl
  | cons sec l ih => cases sec <;> simp [isConstraintSection, ih]

/-- C5: `from_source` processes every declaration section before resolving
any constraint: its result on any source equals its result on the
reordered source in which all declaration sections come first and all
constraint sections come last, so a constraint section placed before the
declarations it references resolves exactly as if it came after them. -/
theorem declarations_processed_first (source : List SourceSection) :
    from_source source =
      from_source (source.filter isDeclSection ++ source.filter isConstraintSection) ∧
    (from_source
      [.BoundaryConstraints [⟨"clk", false, .first, .Const 0⟩],
       .TransitionConstraints [.sub (.var "clk" true) (.add (.var "clk" false) (.const 1))],
       .TraceCols ["clk"] []]).isOk = true := by
  constructor
  · apply from_source_congr
    · rw [List.filter_append, filter_decl_idem, filter_decl_of_constr, List.append_nil]
    · rw [List.filter_append, filter_constr_of_decl, filter_constr_idem, List.nil_append]
  · decide

/-- C4 counterexample: a source with two AIR name declarations and the same
source with those two declaration sections transposed — a permutation of
its declaration sections that leaves the constraint sections untouched —
produce different IRs, refuting the claim that every permutation of the
declaration sections yields an identical IR. -/
theorem section_order_counterexample :
    namedSourceSwapped.Perm namedSource ∧
    namedSource.filter isConstraintSection =
      namedSourceSwapped.filter isConstraintSection ∧
    (from_source namedSource).map AirIR.air_name = .ok "SecondName" ∧
    (from_source namedSourceSwapped).map AirIR.air_name = .ok "FirstName" ∧
    from_source namedSource ≠ from_source namedSourceSwapped := by
  refine ⟨by decide, by decide, by decide, by decide, by decide⟩

/-- C4 (amended): for every source and every permutation of its sections
that preserves the relative order of the declaration sections among
themselves and of the constraint sections among themselves, `from_source`
returns an identical result, and in particular an identical IR. -/
theorem section_order_independence (l₁ l₂ : List SourceSection)
    (hperm : l₁.Perm l₂)
    (hdecl : l₁.filter isDeclSection = l₂.filter isDeclSection)
    (hconstr : l₁.filter isConstraintSection = l₂.filter isConstraintSection) :
    from_source l₁ = from_source l₂ :=
  from_source_congr hdecl hconstr

/-- C4 witness: interleaving the constraint sections of the demo source
between its declaration sections leaves the constructed IR unchanged. -/
theorem section_order_independence_witness :
    from_source demoSource =
      from_source
        [.BoundaryConstraints [⟨"clk", false, .first, .Const 0⟩, ⟨"clk", false, .last, .Const 1⟩],
         .TraceCols ["clk"] [],
         .TransitionConstraints [.sub (.var "clk" true) (.add (.var "clk" false) (.const 1))]] :=
  section_order_independence _ _ (by decide) (by decide) (by decide)

/-! ### The AIR name -/

theorem getLast?_getD_cons :
    ∀ (t : List String) (a d : String), (a :: t).getLast?.getD d = t.getLast?.getD a := by
  intro t
  induction t with
  | nil => intro a d; rfl
  | cons b t ih =>
    intro a d
    rw [List.getLast?_cons_cons, ih b d, ih b a]

theorem airDefNames_cons (sec : SourceSection) (l : List SourceSection) :
    airDefNames (sec :: l) =
      (match sec with | .AirDef n => [n] | _ => []) ++ airDefNames l := by
  cases sec <;> simp [airDefNames]

theorem processDecl_ok_name (s : String × SymbolTable) (sec : SourceSection)
    (s' : String × SymbolTable) (h : processDecl s sec = .ok s') :
    (∀ m, sec = SourceSection.AirDef m → s'.1 = m) ∧
    (airDefNames [sec] = [] → s'.1 = s.1) := by
  cases sec with
  | AirDef m =>
    constructor
    · intro m' hm
      injection hm with h6
      subst h6
      have h1 : Except.ok (m, s.2) = Except.ok s' := h
      injection h1 with h2
      rw [← h2]
    · intro habs
      exact absurd habs (by simp [airDefNames])
  | TraceCols mc ac =>
    refine ⟨(fun m hm => nomatch hm), fun _ => ?_⟩
    cases h1 : s.2.insert_main_trace_columns mc with
    | error e => rw [processDecl, h1] at h; cases h
    | ok st1 =>
      rw [processDecl, h1] at h
      have h2 : (do
          let st ← st1.insert_aux_trace_columns ac
          Except.ok (s.1, st) : Except SemanticError (String × SymbolTable)) = .ok s' := h
      cases h3 : st1.insert_aux_trace_columns ac with
      | error e => rw [h3] at h2; cases h2
      | ok st2 =>
        rw [h3] at h2
        have h4 : Except.ok (s.1, st2) = Except.ok s' := h2
        injection h4 with h5
        rw [← h5]
  | PublicInputs i =>
    refine ⟨(fun m hm => nomatch hm), fun _ => ?_⟩
    cases h1 : s.2.insert_public_inputs i with
    | error e => rw [processDecl, h1] at h; cases h
    | ok st1 =>
      rw [processDecl, h1] at h
      have h2 : Except.ok (s.1, st1) = Except.ok s' := h
      injection h2 with h3
      rw [← h3]
  | PeriodicColumns c =>
    refine ⟨(fun m hm => nomatch hm), fun _ => ?_⟩
    cases h1 : s.2.insert_periodic_columns c with
    | error e => rw [processDecl, h1] at h; cases h
    | ok st1 =>
      rw [processDecl, h1] at h
      have h2 : Except.ok (s.1, st1) = Except.ok s' := h
      injection h2 with h3
      rw [← h3]
  | BoundaryConstraints c =>
    refine ⟨(fun m hm => nomatch hm), fun _ => ?_⟩
    have h1 : Except.ok s = Except.ok s' := h
    injection h1 with h2
    rw [← h2]
  | TransitionConstraints c =>
    refine ⟨(fun m hm => nomatch hm), fun _ => ?_⟩
    have h1 : Except.ok s = Except.ok s' := h
    injection h1 with h2
    rw [← h2]

theorem processDecl_fold_name :
    ∀ (l : List SourceSection) (n₀ : String) (st₀ : SymbolTable)
      (r : String × SymbolTable),
      l.foldlM processDecl (n₀, st₀) = .ok r →
      r.1 = (airDefNames l).getLast?.getD n₀ := by
  intro l
  induction l with
  | nil =>
    intro n₀ st₀ r h
    rw [List.foldlM_nil] at h
    have h1 : Except.ok (n₀, st₀) = Except.ok r := h
    injection h1 with h2
    rw [← h2]
    rfl
  | cons sec l ih =>
    intro n₀ st₀ r h
    rw [List.foldlM_cons] at h
    cases hx : processDecl (n₀, st₀) sec with
    | error e => rw [hx] at h; cases h
    | ok s₁ =>
      rw [hx] at h
      have hname := processDecl_ok_name (n₀, st₀) sec s₁ hx
      have hrest : l.foldlM processDecl (s₁.1, s₁.2) = .ok r := h
      have hmain := ih s₁.1 s₁.2 r hrest
      rw [airDefNames_cons]
      cases sec with
      | AirDef m =>
        rw [List.singleton_append, getLast?_getD_cons]
        rw [hmain, hname.1 m rfl]
      | TraceCols mc ac => rw [List.nil_append, hmain, hname.2 rfl]
      | PublicInputs i => rw [List.nil_append, hmain, hname.2 rfl]
      | PeriodicColumns c => rw [List.nil_append, hmain, hname.2 rfl]
      | BoundaryConstraints c => rw [List.nil_append, hmain, hname.2 rfl]
      | TransitionConstraints c => rw [List.nil_append, hmain, hname.2 rfl]

theorem processSource_ok_name {source : List SourceSection}
    {r : String × SymbolTable × BoundaryConstraints × TransitionConstraints}
    (h : processSource source = .ok r) :
    r.1 = (airDefNames source).getLast?.getD "CustomAir" := by
  rw [processSource] at h
  cases hf : source.foldlM processDecl ("CustomAir", SymbolTable.init) with
  | error e => rw [hf] at h; cases h
  | ok p =>
    rw [hf] at h
    have h1 : (do
        let (bc, tc) ← source.foldlM (processConstr p.2)
          (BoundaryConstraints.init, TransitionConstraints.init)
        Except.ok (p.1, p.2, bc, tc) : Except SemanticError _) = .ok r := h
    cases hg : source.foldlM (processConstr p.2)
        (BoundaryConstraints.init, TransitionConstraints.init) with
    | error e => rw [hg] at h1; cases h1
    | ok q =>
      rw [hg] at h1
      have h2 : Except.ok (p.1, p.2, q.1, q.2) = Except.ok r := h1
      injection h2 with h3
      rw [← h3]
      exact processDecl_fold_name source "CustomAir" SymbolTable.init p hf

/-- C9: whenever `from_source` succeeds, the IR's `air_name` is the fixed
default `"CustomAir"` if the source contains no AIR name declaration, and
otherwise it is the name of the last AIR name declaration in source
order. -/
theorem air_name_default_or_last (source : List SourceSection) (ir : AirIR)
    (h : from_source source = .ok ir) :
    (airDefNames source = [] → ir.air_name = "CustomAir") ∧
    (∀ n, (airDefNames source).getLast? = some n → ir.air_name = n) := by
  obtain ⟨r, hps, hir, -, -⟩ := from_source_ok_elim h
  have hname := processSource_ok_name hps
  have hair : ir.air_name = r.1 := by rw [hir]
  constructor
  · intro hempty
    rw [hair, hname, hempty]
    rfl
  · intro n hlast
    rw [hair, hname, hlast]
    rfl

/-- C9 witness: the demo source (no AIR name declaration) builds an IR named
`"CustomAir"`, and a source with two AIR name declarations builds an IR
named after the last one. -/
theorem air_name_default_or_last_witness :
    (from_source demoSource).map AirIR.air_name = .ok "CustomAir" ∧
    (from_source namedSource).map AirIR.air_name = .ok "SecondName" := by
  have hok1 : (from_source demoSource).isOk = true := by decide
  have hok2 : (from_source namedSource).isOk = true := by decide
  constructor
  · cases h : from_source demoSource with
    | error e =>
      rw [h] at hok1
      simp [Except.isOk, Except.toBool] at hok1
    | ok ir =>
      have h2 := (air_name_default_or_last demoSource ir h).1 (by decide)
      simp [Except.map, h2]
  · cases h : from_source namedSource with
    | error e =>
      rw [h] at hok2
      simp [Except.isOk, Except.toBool] at hok2
    | ok ir =>
      have h2 := (air_name_default_or_last namedSource ir h).2 "SecondName" (by decide)
      simp [Except.map, h2]

/-! ### The completeness gate -/

theorem validate_boundary_ok_iff (bc : BoundaryConstraints) :
    validate_boundary_constraints bc = .ok () ↔
      ¬(bc.main_first = [] ∧ bc.main_last = [] ∧ bc.aux_first = [] ∧ bc.aux_last = []) := by
  rw [validate_boundary_constraints]
  by_cases h : (bc.main_first.isEmpty && bc.main_last.isEmpty
      && bc.aux_first.isEmpty && bc.aux_last.isEmpty) = true
  · rw [if_pos h]
    simp only [Bool.and_eq_true, List.isEmpty_iff] at h
    constructor
    · intro habs; cases habs
    · intro hneg
      exact absurd ⟨h.1.1.1, h.1.1.2, h.1.2, h.2⟩ hneg
  · rw [if_neg h]
    constructor
    · intro _ hconj
      apply h
      simp only [Bool.and_eq_true, List.isEmpty_iff]
      exact ⟨⟨⟨hconj.1, hconj.2.1⟩, hconj.2.2.1⟩, hconj.2.2.2⟩
    · intro _; rfl

theorem validate_boundary_of_empty {bc : BoundaryConstraints}
    (h : bc.main_first = [] ∧ bc.main_last = [] ∧ bc.aux_first = [] ∧ bc.aux_last = []) :
    validate_boundary_constraints bc =
      .error (.MissingSection "Boundary Constraints Section is missing") := by
  rw [validate_boundary_constraints, if_pos]
  simp only [Bool.and_eq_true, List.isEmpty_iff]
  exact ⟨⟨⟨h.1, h.2.1⟩, h.2.2.1⟩, h.2.2.2⟩

theorem validate_transition_ok_iff (tc : TransitionConstraints) :
    validate_transition_constraints tc = .ok () ↔ ¬(tc.main = [] ∧ tc.aux = []) := by
  rw [validate_transition_constraints]
  by_cases h : (tc.main_constraints.isEmpty && tc.aux_constraints.isEmpty) = true
  · rw [if_pos h]
    simp only [Bool.and_eq_true, List.isEmpty_iff] at h
    constructor
    · intro habs; cases habs
    · intro hneg
      exact absurd h hneg
  · rw [if_neg h]
    constructor
    · intro _ hconj
      apply h
      simp only [Bool.and_eq_true, List.isEmpty_iff]
      exact hconj
    · intro _; rfl

theorem validate_transition_of_empty {tc : TransitionConstraints}
    (h : tc.main = [] ∧ tc.aux = []) :
    validate_transition_constraints tc =
      .error (.MissingSection "Transition Constraints Section is missing") := by
  rw [validate_transition_constraints, if_pos]
  simp only [Bool.and_eq_true, List.isEmpty_iff]
  exact h

theorem validate_boundary_cases (bc : BoundaryConstraints) :
    validate_boundary_constraints bc = .ok () ∨
      validate_boundary_constraints bc =
        .error (.MissingSection "Boundary Constraints Section is missing") := by
  rw [validate_boundary_constraints]
  by_cases h : (bc.main_first.isEmpty && bc.main_last.isEmpty
      && bc.aux_first.isEmpty && bc.aux_last.isEmpty) = true
  · rw [if_pos h]; exact Or.inr rfl
  · rw [if_neg h]; exact Or.inl rfl

theorem from_source_of_processSource {source : List SourceSection}
    {r : String × SymbolTable × BoundaryConstraints × TransitionConstraints}
    (hps : processSource source = .ok r) :
    from_source source = (do
      validate_boundary_constraints r.2.2.1
      validate_transition_constraints r.2.2.2
      Except.ok (⟨r.1, r.2.1.public_inputs, r.2.1.periodic_columns,
        r.2.2.1, r.2.2.2⟩ : AirIR)) := by
  rw [from_source, hps]
  rfl

/-- C3: `from_source` yields an IR only when the boundary store has an
assertion in at least one of its four buckets and the transition store a
constraint in at least one of its two lists; whenever either store ends up
entirely empty after processing, construction fails with a `MissingSection`
error instead of returning an IR. -/
theorem missing_section_gate (source : List SourceSection) :
    (∀ ir, from_source source = .ok ir →
      ¬(ir.boundary_constraints.main_first = [] ∧ ir.boundary_constraints.main_last = [] ∧
        ir.boundary_constraints.aux_first = [] ∧ ir.boundary_constraints.aux_last = []) ∧
      ¬(ir.transition_constraints.main = [] ∧ ir.transition_constraints.aux = [])) ∧
    (∀ r, processSource source = .ok r →
      (r.2.2.1.main_first = [] ∧ r.2.2.1.main_last = [] ∧
        r.2.2.1.aux_first = [] ∧ r.2.2.1.aux_last = []) →
      ∃ msg, from_source source = .error (.MissingSection msg)) ∧
    (∀ r, processSource source = .ok r →
      (r.2.2.2.main = [] ∧ r.2.2.2.aux = []) →
      ∃ msg, from_source source = .error (.MissingSection msg)) := by
  refine ⟨?_, ?_, ?_⟩
  · intro ir h
    obtain ⟨r, hps, hir, hb, ht⟩ := from_source_ok_elim h
    constructor
    · have := (validate_boundary_ok_iff r.2.2.1).mp hb
      rw [hir]
      exact this
    · have := (validate_transition_ok_iff r.2.2.2).mp ht
      rw [hir]
      exact this
  · intro r hps hempty
    refine ⟨"Boundary Constraints Section is missing", ?_⟩
    rw [from_source_of_processSource hps, validate_boundary_of_empty hempty]
    rfl
  · intro r hps hempty
    rcases validate_boundary_cases r.2.2.1 with hb | hb
    · refine ⟨"Transition Constraints Section is missing", ?_⟩
      rw [from_source_of_processSource hps, hb]
      show validate_transition_constraints r.2.2.2 >>= _ = _
      rw [validate_transition_of_empty hempty]
      rfl
    · refine ⟨"Boundary Constraints Section is missing", ?_⟩
      rw [from_source_of_processSource hps, hb]
      rfl

/-- C3 witness: a source missing its boundary (resp. transition) constraint
section fails with a `MissingSection` error, and the stores of the IR built
from the demo source are non-empty. -/
theorem missing_section_gate_witness :
    (∃ msg, from_source noBoundarySource = .error (.MissingSection msg)) ∧
    (∃ msg, from_source noTransitionSource = .error (.MissingSection msg)) ∧
    ¬((AirIR.mk "CustomAir" [] [] ⟨[(0, .Const 0)], [(0, .Const 1)], [], []⟩
        ⟨⟨[.TraceColumnRef false 0 true, .TraceColumnRef false 0 false, .Constant 1,
          .BinaryAdd 1 2, .BinarySub 0 3]⟩, [4], []⟩).transition_constraints.main = [] ∧
      (AirIR.mk "CustomAir" [] [] ⟨[(0, .Const 0)], [(0, .Const 1)], [], []⟩
        ⟨⟨[.TraceColumnRef false 0 true, .TraceColumnRef false 0 false, .Constant 1,
          .BinaryAdd 1 2, .BinarySub 0 3]⟩, [4], []⟩).transition_constraints.aux = []) := by
  refine ⟨?_, ?_, ?_⟩
  · exact (missing_section_gate noBoundarySource).2.1
      ("CustomAir", ⟨[("clk", .MainTraceColumn 0)], [], []⟩,
        ⟨[], [], [], []⟩,
        ⟨⟨[.TraceColumnRef false 0 true, .TraceColumnRef false 0 false, .Constant 1,
          .BinaryAdd 1 2, .BinarySub 0 3]⟩, [4], []⟩)
      (by decide) (by decide)
  · exact (missing_section_gate noTransitionSource).2.2
      ("CustomAir", ⟨[("clk", .MainTraceColumn 0)], [], []⟩,
        ⟨[(0, .Const 0)], [], [], []⟩, ⟨⟨[]⟩, [], []⟩)
      (by decide) (by decide)
  · exact ((missing_section_gate demoSource).1
      (AirIR.mk "CustomAir" [] [] ⟨[(0, .Const 0)], [(0, .Const 1)], [], []⟩
        ⟨⟨[.TraceColumnRef false 0 true, .TraceColumnRef false 0 false, .Constant 1,
          .BinaryAdd 1 2, .BinarySub 0 3]⟩, [4], []⟩)
      (by decide)).2

/-- C10: when both the boundary store and the transition store come out of
processing entirely empty, `from_source` returns the boundary
`MissingSection` error — the boundary store is validated first, so its
error takes precedence. -/
theorem boundary_validated_first (source : List SourceSection)
    (r : String × SymbolTable × BoundaryConstraints × TransitionConstraints)
    (hps : processSource source = .ok r)
    (hbc : r.2.2.1.main_first = [] ∧ r.2.2.1.main_last = [] ∧
      r.2.2.1.aux_first = [] ∧ r.2.2.1.aux_last = [])
    (htc : r.2.2.2.main = [] ∧ r.2.2.2.aux = []) :
    from_source source =
      .error (.MissingSection "Boundary Constraints Section is missing") := by
  rw [from_source_of_processSource hps, validate_boundary_of_empty hbc]
  rfl

/-- C10 witness: the empty source processes to empty stores and fails with
the boundary `MissingSection` error, not the transition one. -/
theorem boundary_validated_first_witness :
    from_source [] =
      .error (.MissingSection "Boundary Constraints Section is missing") :=
  boundary_validated_first []
    ("CustomAir", SymbolTable.init, BoundaryConstraints.init, TransitionConstraints.init)
    (by decide) (by decide) (by decide)

/-! ### Periodic-column contribution to constraint degrees -/

theorem periodic_insert_reduction (values : List Nat)
    (hpow : is_power_of_two values.length = true)
    (hmin : MIN_CYCLE_LENGTH ≤ values.length) :
    (SymbolTable.mk [("clk", .MainTraceColumn 0)] [] []).insert_periodic_columns
      [("p", values)] =
      .ok ⟨[("clk", .MainTraceColumn 0), ("p", .PeriodicColumn 0 values.length)],
        [], [values]⟩ := by
  have hstep : (do
      let st ← (SymbolTable.mk [("clk", .MainTraceColumn 0)] [] []).insert_symbol "p"
        (.PeriodicColumn 0 values.length)
      if is_power_of_two values.length = true ∧ MIN_CYCLE_LENGTH ≤ values.length then
        Except.ok { st with periodic_columns := st.periodic_columns ++ [values] }
      else
        Except.error (.InvalidPeriodicColumnCycle "p" values.length) :
      Except SemanticError SymbolTable) =
      .ok ⟨[("clk", .MainTraceColumn 0), ("p", .PeriodicColumn 0 values.length)],
        [], [values]⟩ := by
    have h1 : (if is_power_of_two values.length = true ∧ MIN_CYCLE_LENGTH ≤ values.length then
        (Except.ok (⟨[("clk", .MainTraceColumn 0), ("p", .PeriodicColumn 0 values.length)],
          [], [values]⟩ : SymbolTable) : Except SemanticError SymbolTable)
      else
        Except.error (.InvalidPeriodicColumnCycle "p" values.length)) =
        .ok ⟨[("clk", .MainTraceColumn 0), ("p", .PeriodicColumn 0 values.length)],
          [], [values]⟩ := by
      rw [if_pos ⟨hpow, hmin⟩]
    exact h1
  rw [SymbolTable.insert_periodic_columns]
  simp only [List.foldlM_cons, List.foldlM_nil, List.length_nil]
  rw [hstep]
  rfl

theorem processSource_periodicOnly (values : List Nat)
    (hpow : is_power_of_two values.length = true)
    (hmin : MIN_CYCLE_LENGTH ≤ values.length) :
    processSource (periodicOnlySource values) = .ok
      ("CustomAir",
        ⟨[("clk", .MainTraceColumn 0), ("p", .PeriodicColumn 0 values.length)], [], [values]⟩,
        ⟨[(0, .Const 0)], [], [], []⟩,
        ⟨⟨[.PeriodicColumnRef 0]⟩, [0], []⟩) := by
  have hd2 : processDecl ("CustomAir", SymbolTable.mk [("clk", .MainTraceColumn 0)] [] [])
      (.PeriodicColumns [("p", values)]) =
      .ok ("CustomAir",
        ⟨[("clk", .MainTraceColumn 0), ("p", .PeriodicColumn 0 values.length)],
          [], [values]⟩) := by
    show (do
      let st ← (SymbolTable.mk [("clk", .MainTraceColumn 0)] [] []).insert_periodic_columns
        [("p", values)]
      Except.ok ("CustomAir", st) : Except SemanticError (String × SymbolTable)) = _
    rw [periodic_insert_reduction values hpow hmin]
    rfl
  have hfold1 : (periodicOnlySource values).foldlM processDecl
      ("CustomAir", SymbolTable.init) =
      .ok ("CustomAir",
        ⟨[("clk", .MainTraceColumn 0), ("p", .PeriodicColumn 0 values.length)],
          [], [values]⟩) := by
    rw [periodicOnlySource, List.foldlM_cons]
    rw [show processDecl ("CustomAir", SymbolTable.init) (.TraceCols ["clk"] []) =
      .ok ("CustomAir", SymbolTable.mk [("clk", .MainTraceColumn 0)] [] []) from rfl]
    show List.foldlM processDecl
      ("CustomAir", SymbolTable.mk [("clk", .MainTraceColumn 0)] [] [])
      [.PeriodicColumns [("p", values)],
       .BoundaryConstraints [⟨"clk", false, .first, .Const 0⟩],
       .TransitionConstraints [.var "p" false]] = _
    rw [List.foldlM_cons, hd2]
    rfl
  rw [processSource, hfold1]
  rfl

/-- C8: a transition constraint whose expression is a reference to a single
periodic column with value list of length `L` (and no trace columns) gets
the degree record with base degree 0 and cycle-length multiset `{L - 1}`;
and in general every `PeriodicColumnRef` node contributes its column's
cycle length minus one to the degree record. -/
theorem periodic_column_degree (values : List Nat)
    (hpow : is_power_of_two values.length = true)
    (hmin : MIN_CYCLE_LENGTH ≤ values.length) :
    (from_source (periodicOnlySource values)).map AirIR.main_degrees =
      .ok [⟨0, {values.length - 1}⟩] ∧
    (∀ (g : AlgebraicGraph) (cl : List Nat) (index i : Nat),
      g.nodes[i]? = some (.PeriodicColumnRef index) →
      g.degree cl i = ⟨0, {cl.getD index 0 - 1}⟩) := by
  constructor
  · rw [from_source_of_processSource (processSource_periodicOnly values hpow hmin)]
    rfl
  · intro g cl index i h
    show degreeAux g.nodes cl (i + 1) i = _
    simp [degreeAux, h]

/-- C8 witness: a periodic column with two values yields a degree record
with base 0 and cycle multiset `{1}`, and a concrete periodic-reference
node under cycle lengths `[4]` contributes `{3}`. -/
theorem periodic_column_degree_witness :
    (from_source (periodicOnlySource [0, 0])).map AirIR.main_degrees =
      .ok [⟨0, {1}⟩] ∧
    (AlgebraicGraph.mk [.PeriodicColumnRef 0]).degree [4] 0 = ⟨0, {3}⟩ := by
  have h := periodic_column_degree [0, 0] (by decide) (by decide)
  exact ⟨h.1, h.2 ⟨[.PeriodicColumnRef 0]⟩ [4] 0 0 rfl⟩

end AirDsl
